import Mathlib

/-!
Shallow embedding of the worker's event store, sync engine and durable retry
policy from this repository (`internal/worker/store.go`, `internal/worker/server.go`,
`internal/worker/workflows.go`), together with proofs of the specification claims.

Modelling conventions:
* `time.Time` values are modelled as `Int` (UTC instants); the zero time / a NULL
  SQL parameter is modelled as `none` of an `Option Int`.
* The SQLite `events` table is an append-only list of rows plus the AUTOINCREMENT
  counter; `TEXT` columns are `String`, nullable columns are `Option`.
* `map[string]any` property/metadata payloads are association lists of a small
  JSON-like value type; `json.Marshal` of the values actually built by the worker
  (strings, integers, formatted timestamps) always succeeds, so serialisation is
  modelled as the identity on these lists.
* HTTP calls to the external builder service are oracles (`Int → Except ε page`),
  matching the spec's treatment of the paginated source as an external collaborator.
-/

namespace Worker

/-- JSON-like values appearing in event property / metadata maps.
`time t` stands for the RFC3339-formatted rendering of the instant `t`. -/
inductive JVal where
  | str (s : String)
  | int (n : Int)
  | time (t : Int)
deriving DecidableEq

/-- The Go `worker.Event` struct (models.go): the insert request. An empty
`utmSource` string is Go's absent value; `ingestedAt = none` models the zero
`time.Time` (which `utcOrNil` turns into a NULL parameter). -/
structure Event where
  siteID : String
  timestamp : Int
  userID : String
  eventName : String
  utmSource : String
  properties : List (String × JVal)
  dedupeKey : String
  ingestedAt : Option Int
  metadata : List (String × JVal)
deriving DecidableEq

/-- One persisted row of the `events` table (store.go `Init` schema):
`utm_source` and `metadata` are nullable columns, `id` is AUTOINCREMENT,
`dedupe_key` is UNIQUE. -/
structure EventRow where
  id : Int
  siteID : String
  timestamp : Int
  userID : String
  eventName : String
  utmSource : Option String
  properties : List (String × JVal)
  dedupeKey : String
  ingestedAt : Int
  metadata : Option (List (String × JVal))
deriving DecidableEq

/-- The `events` table: rows in insertion order plus the next AUTOINCREMENT id. -/
structure EventStore where
  rows : List EventRow
  nextId : Int
deriving DecidableEq

def emptyStore : EventStore := { rows := [], nextId := 1 }

/-- Go `unicode.IsSpace` on the whitespace characters relevant to
`strings.TrimSpace` (ASCII whitespace plus NEL and NBSP). -/
def goIsSpace (c : Char) : Bool :=
  c = ' ' || c = '\t' || c = '\n' || c = Char.ofNat 0x0B || c = Char.ofNat 0x0C ||
    c = '\r' || c = Char.ofNat 0x85 || c = Char.ofNat 0xA0

/-- Go `strings.TrimSpace`: drop leading and trailing whitespace. -/
def trimSpace (s : String) : String :=
  String.mk (((s.data.dropWhile goIsSpace).reverse.dropWhile goIsSpace).reverse)

/-- store.go `nullIfEmpty`: an empty or whitespace-only utm_source is stored as NULL. -/
def nullIfEmpty (v : String) : Option String :=
  if trimSpace v = "" then none else some v

/-- Whether some row with the given dedupe key exists (the UNIQUE constraint check). -/
def hasKey (st : EventStore) (k : String) : Bool :=
  st.rows.any fun r => r.dedupeKey = k

/-- Number of rows carrying the given dedupe key. -/
def countKey (st : EventStore) (k : String) : Nat :=
  (st.rows.filter fun r => r.dedupeKey = k).length

/-- The row a successful insert appends (store.go `InsertEvent` VALUES clause):
`utm_source` through `nullIfEmpty`, `ingested_at` through
`COALESCE(?, CURRENT_TIMESTAMP)` with `utcOrNil`, `metadata` through `bytesOrNil`. -/
def freshRow (now : Int) (st : EventStore) (e : Event) : EventRow :=
  { id := st.nextId
    siteID := e.siteID
    timestamp := e.timestamp
    userID := e.userID
    eventName := e.eventName
    utmSource := nullIfEmpty e.utmSource
    properties := e.properties
    dedupeKey := e.dedupeKey
    ingestedAt := e.ingestedAt.getD now
    metadata := if e.metadata.isEmpty then none else some e.metadata }

/-- store.go `InsertEvent`: `INSERT ... ON CONFLICT(dedupe_key) DO NOTHING`,
returning whether a row was inserted (`RowsAffected > 0`). The Go error paths
(JSON marshalling of the payload, database failure) do not arise for the
payloads modelled here, so the result is the new store and the boolean. -/
def InsertEvent (now : Int) (st : EventStore) (e : Event) : EventStore × Bool :=
  if hasKey st e.dedupeKey then (st, false)
  else ({ rows := st.rows ++ [freshRow now st e], nextId := st.nextId + 1 }, true)

/-- The `WHERE user_id = ? AND utm_source IS NOT NULL AND utm_source != ''` filter
of store.go `LatestAttribution`. -/
def taggedFor (u : String) (r : EventRow) : Bool :=
  if r.userID = u then
    match r.utmSource with
    | some s => if s = "" then false else true
    | none => false
  else false

/-- `ORDER BY timestamp DESC, id DESC`: row `a` sorts strictly before row `b`. -/
def beats (a b : EventRow) : Bool :=
  if a.timestamp > b.timestamp then true
  else if a.timestamp = b.timestamp then decide (a.id > b.id)
  else false

/-- `LIMIT 1` under `ORDER BY timestamp DESC, id DESC`: a maximal row of the list. -/
def pickLatest : List EventRow → Option EventRow
  | [] => none
  | r :: rest =>
    match pickLatest rest with
    | none => some r
    | some b => if beats b r then some b else some r

/-- store.go `LatestAttribution`: most recent non-empty utm_source for a user,
`("", false)` when the user has no tagged row (`sql.ErrNoRows` is not an error). -/
def LatestAttribution (st : EventStore) (u : String) : String × Bool :=
  match pickLatest (st.rows.filter (taggedFor u)) with
  | some r => (r.utmSource.getD "", true)
  | none => ("", false)

/-- A row of the `registered_sites` table (`registered_at` is NOT NULL). -/
structure RegisteredSite where
  siteID : String
  accessKey : String
  builderBaseURL : String
  registeredAt : Int
deriving DecidableEq

/-- store.go `RegisterSite`:
`INSERT ... VALUES(?, ?, ?, COALESCE(?, CURRENT_TIMESTAMP)) ON CONFLICT(site_id)
DO UPDATE SET access_key = excluded.access_key, builder_base_url = excluded.builder_base_url`.
`registeredAt = none` models a NULL timestamp parameter (an unsupplied registration
time), which `COALESCE` replaces with the current time on a fresh insert. -/
def RegisterSite (now : Int) (reg : List RegisteredSite)
    (siteID accessKey builderBaseURL : String) (registeredAt : Option Int) :
    List RegisteredSite :=
  if reg.any fun r => r.siteID = siteID then
    reg.map fun r =>
      if r.siteID = siteID then
        { r with accessKey := accessKey, builderBaseURL := builderBaseURL }
      else r
  else
    reg ++ [{ siteID := siteID, accessKey := accessKey, builderBaseURL := builderBaseURL,
              registeredAt := registeredAt.getD now }]

/-- models.go `SyncSummary` (fields are Go `int`). -/
structure SyncSummary where
  inserted : Int
  skipped : Int
  pages : Int
  total : Int
deriving DecidableEq

def zeroSummary : SyncSummary := { inserted := 0, skipped := 0, pages := 0, total := 0 }

/-- server.go `pagedResult`: what one `pagedFetcher` call reports back to `syncSite`. -/
structure PagedResult where
  page : Int
  total : Int
  hasMore : Bool
  nextPage : Option Int
  inserted : Int
  skipped : Int
deriving DecidableEq

/-- Outcome of the pagination loop. `fuelOut` is an artefact of the shallow
embedding: Go's unbounded `for` loop is run on `fuel` iterations, and `fuelOut`
records that the loop would still be running (carrying the page it would fetch
next). `cancelled` is the `ctx.Err()` early return. -/
inductive RunOutcome (ε σ : Type) where
  | ok (summary : SyncSummary) (s : σ)
  | err (e : ε) (summary : SyncSummary) (s : σ)
  | cancelled (summary : SyncSummary) (s : σ)
  | fuelOut (summary : SyncSummary) (s : σ) (nextPage : Int)
deriving DecidableEq

/-- The per-page summary update of server.go `syncSite`: add inserted/skipped,
count the page, and keep the largest observed remote total. -/
def stepSummary (sum : SyncSummary) (res : PagedResult) : SyncSummary :=
  { inserted := sum.inserted + res.inserted
    skipped := sum.skipped + res.skipped
    pages := sum.pages + 1
    total := if res.total > sum.total then res.total else sum.total }

/-- The page advance of server.go `syncSite`: the explicitly named next page,
or the current page plus one. -/
def nextPageOf (res : PagedResult) (current : Int) : Int :=
  match res.nextPage with
  | some n => n
  | none => current + 1

/-- server.go `syncSite`: the pagination loop. `fetch` is the `pagedFetcher`
(one builder fetch plus the persistence of that page, threading the store state
`σ`); `ctxErr i` tells whether `ctx.Err()` is non-nil at the `i`-th iteration;
`fuel` bounds the number of modelled iterations. -/
def syncSite {ε σ : Type} (fetch : Int → σ → Except ε (PagedResult × σ))
    (ctxErr : Nat → Bool) :
    Nat → Nat → Int → SyncSummary → σ → RunOutcome ε σ
  | 0, _, p, sum, s => .fuelOut sum s p
  | fuel + 1, i, p, sum, s =>
    if ctxErr i then .cancelled sum s
    else
      match fetch p s with
      | .error e => .err e sum s
      | .ok (res, s2) =>
        let sum2 := stepSummary sum res
        if res.hasMore then
          syncSite fetch ctxErr fuel (i + 1) (nextPageOf res p) sum2 s2
        else .ok sum2 s2

/-- Instrumented variant of `syncSite` that additionally returns the trace of
issued fetches: the page number requested and the `pagedResult` obtained, in
order. `syncSiteT_fst` shows it computes the same outcome. -/
def syncSiteT {ε σ : Type} (fetch : Int → σ → Except ε (PagedResult × σ))
    (ctxErr : Nat → Bool) :
    Nat → Nat → Int → SyncSummary → σ → RunOutcome ε σ × List (Int × PagedResult)
  | 0, _, p, sum, s => (.fuelOut sum s p, [])
  | fuel + 1, i, p, sum, s =>
    if ctxErr i then (.cancelled sum s, [])
    else
      match fetch p s with
      | .error e => (.err e sum s, [])
      | .ok (res, s2) =>
        let sum2 := stepSummary sum res
        if res.hasMore then
          let rest := syncSiteT fetch ctxErr fuel (i + 1) (nextPageOf res p) sum2 s2
          (rest.1, (p, res) :: rest.2)
        else (.ok sum2 s2, [(p, res)])

/-- A context that is never cancelled. -/
def noCancel : Nat → Bool := fun _ => false

/-- Builder user JSON shape consumed by the worker (client.go `BuilderUser`). -/
structure BuilderUser where
  id : String
  siteID : String
  email : String
  firstName : String
  lastName : String
  signupAt : Int
deriving DecidableEq

/-- Builder order JSON shape consumed by the worker (client.go `BuilderOrder`). -/
structure BuilderOrder where
  id : String
  siteID : String
  userID : String
  orderNumber : String
  totalAmount : Int
  currency : String
  placedAt : Int
deriving DecidableEq

/-- server.go `utmIf`. -/
def utmIf (ok : Bool) (utm : String) : String := if ok then utm else ""

/-- The deterministic dedupe key `fmt.Sprintf("signup:%s:%s", site.SiteID, user.ID)`. -/
def signupKey (site : RegisteredSite) (u : BuilderUser) : String :=
  "signup:" ++ site.siteID ++ ":" ++ u.id

/-- The event server.go `persistUsers` constructs for one remote user, given the
looked-up attribution `(utm, ok)`. -/
def signupEvent (site : RegisteredSite) (u : BuilderUser) (utm : String) (ok : Bool) :
    Event :=
  { siteID := site.siteID
    timestamp := u.signupAt
    userID := u.id
    eventName := "signup"
    utmSource := utmIf ok utm
    properties := [("email", .str u.email), ("first_name", .str u.firstName),
      ("last_name", .str u.lastName), ("signup_at", .time u.signupAt)]
    dedupeKey := signupKey site u
    ingestedAt := none
    metadata := [] }

/-- The deterministic dedupe key `fmt.Sprintf("order:%s:%s", site.SiteID, order.ID)`. -/
def orderKey (site : RegisteredSite) (o : BuilderOrder) : String :=
  "order:" ++ site.siteID ++ ":" ++ o.id

/-- The event server.go `persistOrders` constructs for one remote order. -/
def orderEvent (site : RegisteredSite) (o : BuilderOrder) (utm : String) (ok : Bool) :
    Event :=
  { siteID := site.siteID
    timestamp := o.placedAt
    userID := o.userID
    eventName := "order_created"
    utmSource := utmIf ok utm
    properties := [("order_id", .str o.id), ("order_number", .str o.orderNumber),
      ("total_amount", .int o.totalAmount), ("currency", .str o.currency),
      ("user_id", .str o.userID), ("placed_at", .time o.placedAt)]
    dedupeKey := orderKey site o
    ingestedAt := none
    metadata := [] }

/-- server.go `persistUsers`: for each remote user look up the latest attribution,
build the signup event, insert it, and count inserted/skipped. -/
def persistUsers (now : Int) (site : RegisteredSite) :
    List BuilderUser → EventStore → Int × Int × EventStore
  | [], st => (0, 0, st)
  | u :: rest, st =>
    let la := LatestAttribution st u.id
    let step := InsertEvent now st (signupEvent site u la.1 la.2)
    let cont := persistUsers now site rest step.1
    if step.2 then (cont.1 + 1, cont.2.1, cont.2.2) else (cont.1, cont.2.1 + 1, cont.2.2)

/-- server.go `persistOrders`: same shape as `persistUsers` for orders. -/
def persistOrders (now : Int) (site : RegisteredSite) :
    List BuilderOrder → EventStore → Int × Int × EventStore
  | [], st => (0, 0, st)
  | o :: rest, st =>
    let la := LatestAttribution st o.userID
    let step := InsertEvent now st (orderEvent site o la.1 la.2)
    let cont := persistOrders now site rest step.1
    if step.2 then (cont.1 + 1, cont.2.1, cont.2.2) else (cont.1, cont.2.1 + 1, cont.2.2)

/-- client.go `PagedUsersResponse`. -/
structure PagedUsersResponse where
  page : Int
  pageSize : Int
  total : Int
  hasMore : Bool
  nextPage : Option Int
  users : List BuilderUser
deriving DecidableEq

/-- server.go `fetchUsersPage`: fetch one page from the builder (`remote` is the
HTTP oracle) and persist its users, packaging the result for `syncSite`. -/
def fetchUsersPage (remote : Int → Except String PagedUsersResponse) (now : Int)
    (site : RegisteredSite) (p : Int) (st : EventStore) :
    Except String (PagedResult × EventStore) :=
  match remote p with
  | .error e => .error e
  | .ok resp =>
    let r := persistUsers now site resp.users st
    .ok ({ page := resp.page, total := resp.total, hasMore := resp.hasMore,
           nextPage := resp.nextPage, inserted := r.1, skipped := r.2.1 }, r.2.2)

/-- A full user sync run as `SyncUsersForSite` / `SyncUsersActivity` invoke it:
`syncSite` over `fetchUsersPage` on an uncancelled context, starting from an
empty summary. -/
def syncUsers (remote : Int → Except String PagedUsersResponse) (now : Int)
    (site : RegisteredSite) (fuel : Nat) (page : Int) (st : EventStore) :
    RunOutcome String EventStore :=
  syncSite (fetchUsersPage remote now site) noCancel fuel 0 page zeroSummary st

/-- A Go error value as the durable layer sees it: `typeName` is the error type
name the Temporal substrate records on the converted application failure and
matches against `NonRetryableErrorTypes`; plain errors built with `errors.New` /
`fmt.Errorf` carry their dynamic Go type name (`errorString`), never a custom
application error type. -/
structure GoError where
  typeName : String
  msg : String
deriving DecidableEq

/-- `sql.ErrNoRows`, returned by store.go `GetSite` for an unregistered site:
a plain `errors.New` value. -/
def errNoRows : GoError :=
  { typeName := "errorString", msg := "sql: no rows in result set" }

/-- The error client.go `FetchUsers` returns when the builder rejects the access
key (HTTP 401): a plain `fmt.Errorf` value. -/
def errBuilderUnauthorized : GoError :=
  { typeName := "errorString", msg := "fetch users: builder returned 401 Unauthorized" }

/-- The retry policy fields of workflows.go `SyncSiteWorkflow` (intervals in
milliseconds; the backoff coefficient 2.0 is exact). -/
structure RetryPolicy where
  maximumAttempts : Nat
  initialIntervalMs : Nat
  backoffCoefficient : Nat
  maximumIntervalMs : Nat
  nonRetryableErrorTypes : List String
deriving DecidableEq

/-- The `temporal.RetryPolicy` literal inside `SyncSiteWorkflow`. -/
def syncActivityRetryPolicy : RetryPolicy :=
  { maximumAttempts := 5
    initialIntervalMs := 1000
    backoffCoefficient := 2
    maximumIntervalMs := 30000
    nonRetryableErrorTypes := ["InvalidAccessKey", "SiteNotFound"] }

/-- Modelled from the spec: the durable substrate (the Temporal service, an
external collaborator) never retries a failure whose recorded error type is in
the policy's `NonRetryableErrorTypes` list, and treats every other failure as
transient. -/
def isNonRetryable (pol : RetryPolicy) (e : GoError) : Bool :=
  pol.nonRetryableErrorTypes.contains e.typeName

/-- Modelled from the spec: the substrate's attempt loop. `run n` is the outcome
of the `n`-th attempt (1-based); `rem` is the number of attempts still allowed
after the current one. Stops on success, on a non-retryable failure, or on
exhaustion of the attempt budget. -/
def retryGo {α : Type} (pol : RetryPolicy) (run : Nat → Except GoError α) :
    Nat → Nat → Except GoError α × Nat
  | 0, att => (run att, att)
  | rem + 1, att =>
    match run att with
    | .ok a => (.ok a, att)
    | .error e =>
      if isNonRetryable pol e then (.error e, att)
      else retryGo pol run rem (att + 1)

/-- Modelled from the spec: execute one activity under a retry policy, returning
the final outcome and the number of attempts consumed. -/
def executeWithRetry {α : Type} (pol : RetryPolicy) (run : Nat → Except GoError α) :
    Except GoError α × Nat :=
  retryGo pol run (pol.maximumAttempts - 1) 1

/-- A store is well-formed when every present `utm_source` has non-whitespace
content (the invariant `nullIfEmpty` maintains). -/
def WFStore (st : EventStore) : Prop :=
  ∀ r ∈ st.rows, ∀ s, r.utmSource = some s → trimSpace s ≠ ""

/-- Row `r` is a tagged row of subject `u`: the candidate set of
`LatestAttribution`. -/
def TaggedRow (u : String) (r : EventRow) : Prop :=
  r.userID = u ∧ ∃ s, r.utmSource = some s ∧ s ≠ ""

/-! Basic lemmas about `InsertEvent` and dedupe keys. -/

lemma hasKey_false_filter {st : EventStore} {k : String} (h : hasKey st k = false) :
    st.rows.filter (fun r => decide (r.dedupeKey = k)) = [] := by
  rw [List.filter_eq_nil_iff]
  intro r hr
  intro hk
  have : st.rows.any (fun r => decide (r.dedupeKey = k)) = true :=
    List.any_eq_true.mpr ⟨r, hr, hk⟩
  rw [hasKey] at h
  simp_all

lemma insert_rows_mono (now : Int) (st : EventStore) (e : Event) :
    ∀ r ∈ st.rows, r ∈ (InsertEvent now st e).1.rows := by
  intro r hr
  unfold InsertEvent
  split
  · exact hr
  · exact List.mem_append_left _ hr

lemma insert_hasKey_mono (now : Int) (st : EventStore) (e : Event) (k : String)
    (h : hasKey st k = true) : hasKey (InsertEvent now st e).1 k = true := by
  rw [hasKey, List.any_eq_true] at h ⊢
  obtain ⟨r, hr, hk⟩ := h
  exact ⟨r, insert_rows_mono now st e r hr, hk⟩

lemma insert_self_key (now : Int) (st : EventStore) (e : Event) :
    hasKey (InsertEvent now st e).1 e.dedupeKey = true := by
  unfold InsertEvent
  split
  · assumption
  · rw [hasKey, List.any_eq_true]
    exact ⟨freshRow now st e, List.mem_append_right _ (List.mem_singleton.mpr rfl), by simp [freshRow]⟩

lemma insert_skip (now : Int) (st : EventStore) (e : Event)
    (h : hasKey st e.dedupeKey = true) : InsertEvent now st e = (st, false) := by
  unfold InsertEvent
  simp [h]

lemma insert_fresh (now : Int) (st : EventStore) (e : Event)
    (h : hasKey st e.dedupeKey = false) :
    InsertEvent now st e =
      ({ rows := st.rows ++ [freshRow now st e], nextId := st.nextId + 1 }, true) := by
  unfold InsertEvent
  simp [h]

lemma insert_key_rows (now : Int) (st : EventStore) (e : Event) (k : String)
    (h : hasKey st k = true) :
    ∀ r ∈ (InsertEvent now st e).1.rows, r.dedupeKey = k → r ∈ st.rows := by
  intro r hr hk
  unfold InsertEvent at hr
  by_cases hdup : hasKey st e.dedupeKey
  · simp [hdup] at hr
    exact hr
  · simp [hdup] at hr
    rcases hr with hr | hr
    · exact hr
    · exfalso
      rw [hr] at hk
      simp [freshRow] at hk
      rw [hk] at hdup
      simp [h] at hdup

/-- C1: for every dedupe key at most one event row ever exists. On a store with
no row for the key, `InsertEvent` reports true and creates exactly one row with
that key; every later call with the same dedupe key (any fields, any number of
repetitions) leaves the store unchanged and reports false, and no later insert
of any event can produce a second row with the key. -/
theorem InsertEvent_dedupe_once (st : EventStore) (e : Event) (now : Int)
    (h : hasKey st e.dedupeKey = false) :
    (InsertEvent now st e).2 = true ∧
    countKey (InsertEvent now st e).1 e.dedupeKey = 1 ∧
    (∀ (e2 : Event) (now2 : Int), e2.dedupeKey = e.dedupeKey →
      InsertEvent now2 (InsertEvent now st e).1 e2 = ((InsertEvent now st e).1, false)) ∧
    (∀ (e3 : Event) (now3 : Int),
      countKey (InsertEvent now3 (InsertEvent now st e).1 e3).1 e.dedupeKey = 1) ∧
    (∀ es : List (Event × Int), (∀ q ∈ es, q.1.dedupeKey = e.dedupeKey) →
      es.foldl (fun acc q => (InsertEvent q.2 acc q.1).1) (InsertEvent now st e).1 =
        (InsertEvent now st e).1) := by
  have hfr : InsertEvent now st e =
      ({ rows := st.rows ++ [freshRow now st e], nextId := st.nextId + 1 }, true) :=
    insert_fresh now st e h
  have hcount : countKey (InsertEvent now st e).1 e.dedupeKey = 1 := by
    rw [hfr]
    rw [countKey]
    simp only [List.filter_append, hasKey_false_filter h]
    simp [freshRow]
  have hlater : ∀ (e2 : Event) (now2 : Int), e2.dedupeKey = e.dedupeKey →
      InsertEvent now2 (InsertEvent now st e).1 e2 = ((InsertEvent now st e).1, false) := by
    intro e2 now2 hk
    apply insert_skip
    rw [hk]
    exact insert_self_key now st e
  refine ⟨by rw [hfr], hcount, hlater, ?_, ?_⟩
  · intro e3 now3
    by_cases hk3 : e3.dedupeKey = e.dedupeKey
    · rw [hlater e3 now3 hk3]
      exact hcount
    · rw [countKey]
      by_cases hdup : hasKey (InsertEvent now st e).1 e3.dedupeKey
      · rw [insert_skip now3 _ e3 hdup]
        exact hcount
      · rw [insert_fresh now3 _ e3 (by simp [hdup])]
        simp only [List.filter_append]
        have : (List.filter (fun r => decide (r.dedupeKey = e.dedupeKey))
            [freshRow now3 (InsertEvent now st e).1 e3]) = [] := by
          simp [freshRow, hk3]
        rw [this, List.append_nil]
        exact hcount
  · intro es hes
    induction es with
    | nil => rfl
    | cons q rest ih =>
      have hq := hes q (List.mem_cons_self q rest)
      simp only [List.foldl_cons]
      rw [hlater q.1 q.2 hq]
      exact ih fun a ha => hes a (List.mem_cons_of_mem q ha)

/-- Concrete event used by witnesses. -/
def wEvent : Event :=
  { siteID := "s1", timestamp := 10, userID := "u1", eventName := "signup",
    utmSource := "google", properties := [], dedupeKey := "signup:s1:u1",
    ingestedAt := none, metadata := [] }

/-- Witness for C1 at a concrete input: inserting into the empty store yields
exactly one row for the key. -/
theorem InsertEvent_dedupe_once_witness :
    countKey (InsertEvent 3 emptyStore wEvent).1 wEvent.dedupeKey = 1 :=
  (InsertEvent_dedupe_once emptyStore wEvent 3 (by decide)).2.1

/-! C9: credential registry upsert. -/

/-- C9 (amended): registering an already-registered site identity replaces that
record's access secret and base address and keeps its old registration
timestamp (a newly supplied timestamp is ignored); registering a fresh site
appends a record stamped with the supplied timestamp, or with the current time
when none is supplied; records of every other site identity pass through
unchanged in both directions. -/
theorem RegisterSite_upsert (now : Int) (reg : List RegisteredSite)
    (sid key url : String) (ts : Option Int) :
    (∀ r ∈ reg, r.siteID ≠ sid → r ∈ RegisterSite now reg sid key url ts) ∧
    (∀ r ∈ RegisterSite now reg sid key url ts, r.siteID ≠ sid → r ∈ reg) ∧
    (∀ old ∈ reg, old.siteID = sid →
      { old with accessKey := key, builderBaseURL := url } ∈
        RegisterSite now reg sid key url ts) ∧
    ((∀ r ∈ reg, r.siteID ≠ sid) →
      RegisterSite now reg sid key url ts =
        reg ++ [{ siteID := sid, accessKey := key, builderBaseURL := url,
                  registeredAt := ts.getD now }]) := by
  by_cases hex : reg.any fun r => r.siteID = sid
  · have hre : RegisterSite now reg sid key url ts =
        reg.map fun r =>
          if r.siteID = sid then
            { r with accessKey := key, builderBaseURL := url }
          else r := by
      rw [RegisterSite]
      simp [hex]
    refine ⟨?_, ?_, ?_, ?_⟩
    · intro r hr hne
      rw [hre]
      refine List.mem_map.mpr ⟨r, hr, ?_⟩
      simp [hne]
    · intro r hr hne
      rw [hre] at hr
      obtain ⟨a, ha, hfa⟩ := List.mem_map.mp hr
      by_cases hs : a.siteID = sid
      · exfalso
        apply hne
        rw [← hfa]
        simp [hs]
      · rw [← hfa]
        simp only [hs, if_false]
        exact ha
    · intro old hold hsid
      rw [hre]
      refine List.mem_map.mpr ⟨old, hold, ?_⟩
      simp [hsid]
    · intro hall
      exfalso
      obtain ⟨r, hr, hk⟩ := List.any_eq_true.mp hex
      exact hall r hr (by simpa using hk)
  · have hre : RegisterSite now reg sid key url ts =
        reg ++ [{ siteID := sid, accessKey := key, builderBaseURL := url,
                  registeredAt := ts.getD now }] := by
      rw [RegisterSite]
      simp only [hex, Bool.false_eq_true, if_false]
    refine ⟨?_, ?_, ?_, fun _ => hre⟩
    · intro r hr _
      rw [hre]
      exact List.mem_append_left _ hr
    · intro r hr hne
      rw [hre] at hr
      rcases List.mem_append.mp hr with hr | hr
      · exact hr
      · exfalso
        rw [List.mem_singleton.mp hr] at hne
        exact hne rfl
    · intro old hold hsid
      exfalso
      have : reg.any (fun r => r.siteID = sid) = true :=
        List.any_eq_true.mpr ⟨old, hold, by simp [hsid]⟩
      simp [this] at hex

/-- Counterexample to C9 as stated: re-registering site `s` with a new access
key, base url and a supplied timestamp 7 keeps the OLD registration timestamp 5
(which is neither the supplied 7 nor the current time 99), so the upsert does
preserve something of the old record besides the replaced fields. -/
theorem RegisterSite_keeps_old_timestamp :
    RegisterSite 99
      [{ siteID := "s", accessKey := "k1", builderBaseURL := "u1", registeredAt := 5 }]
      "s" "k2" "u2" (some 7)
    = [{ siteID := "s", accessKey := "k2", builderBaseURL := "u2", registeredAt := 5 }]
    ∧ (5 : Int) ≠ 7 ∧ (5 : Int) ≠ 99 := by
  refine ⟨?_, by decide, by decide⟩
  rfl

/-- Witness for C9 (amended) at a concrete input: the re-registered record with
the old timestamp is in the updated registry. -/
theorem RegisterSite_upsert_witness :
    ({ siteID := "s", accessKey := "k2", builderBaseURL := "u2", registeredAt := 5 } :
        RegisteredSite) ∈
      RegisterSite 99
        [{ siteID := "s", accessKey := "k1", builderBaseURL := "u1", registeredAt := 5 }]
        "s" "k2" "u2" (some 7) :=
  (RegisterSite_upsert 99
      [{ siteID := "s", accessKey := "k1", builderBaseURL := "u1", registeredAt := 5 }]
      "s" "k2" "u2" (some 7)).2.2.1
    { siteID := "s", accessKey := "k1", builderBaseURL := "u1", registeredAt := 5 }
    (List.mem_singleton.mpr rfl) rfl

/-! C3: `LatestAttribution` returns the tag of the greatest (timestamp, id) row. -/

/-- The (timestamp, sequence id) order on rows: `a` is at most `b`. -/
def lexLe (a b : EventRow) : Prop :=
  a.timestamp < b.timestamp ∨ (a.timestamp = b.timestamp ∧ a.id ≤ b.id)

lemma lexLe_refl (a : EventRow) : lexLe a a := Or.inr ⟨rfl, le_refl _⟩

lemma lexLe_trans {a b c : EventRow} (h1 : lexLe a b) (h2 : lexLe b c) : lexLe a c := by
  rcases h1 with h1 | ⟨h1, h1i⟩ <;> rcases h2 with h2 | ⟨h2, h2i⟩ <;>
    [left; left; left; right] <;> omega

lemma beats_true_imp {a b : EventRow} (h : beats a b = true) : lexLe b a := by
  rw [beats] at h
  split_ifs at h with h1 h2
  · exact Or.inl h1
  · exact Or.inr ⟨h2.symm, le_of_lt (by exact_mod_cast of_decide_eq_true h)⟩

lemma beats_false_imp {a b : EventRow} (h : beats a b = false) : lexLe a b := by
  rw [beats] at h
  split_ifs at h with h1 h2
  · rcases lt_trichotomy a.timestamp b.timestamp with hc | hc | hc
    · exact Or.inl hc
    · exact Or.inr ⟨hc, le_of_not_lt (by simpa using of_decide_eq_false h)⟩
    · exact absurd hc h1
  · rcases lt_trichotomy a.timestamp b.timestamp with hc | hc | hc
    · exact Or.inl hc
    · exact absurd hc h2
    · exact absurd hc h1

lemma pickLatest_none {l : List EventRow} : pickLatest l = none ↔ l = [] := by
  cases l with
  | nil => simp [pickLatest]
  | cons r rest =>
    simp only [pickLatest]
    cases pickLatest rest <;> simp only [List.cons_ne_nil, iff_false]
    · simp
    · split <;> simp

lemma pickLatest_spec {l : List EventRow} {r : EventRow} (h : pickLatest l = some r) :
    r ∈ l ∧ ∀ a ∈ l, lexLe a r := by
  induction l generalizing r with
  | nil => simp [pickLatest] at h
  | cons x rest ih =>
    rw [pickLatest] at h
    cases hrest : pickLatest rest with
    | none =>
      rw [hrest] at h
      have hx : x = r := by
        have h2 : some x = some r := h
        simpa using h2
      have hnil : rest = [] := pickLatest_none.mp hrest
      subst hx
      subst hnil
      exact ⟨List.mem_singleton.mpr rfl, by
        intro a ha
        rw [List.mem_singleton.mp ha]
        exact lexLe_refl x⟩
    | some b =>
      rw [hrest] at h
      have h2 : (if beats b x then some b else some x) = some r := h
      obtain ⟨hbmem, hbmax⟩ := ih hrest
      by_cases hb : beats b x
      · rw [if_pos hb] at h2
        have hbr : b = r := by simpa using h2
        subst hbr
        refine ⟨List.mem_cons_of_mem x hbmem, ?_⟩
        intro a ha
        rcases List.mem_cons.mp ha with ha | ha
        · rw [ha]
          exact beats_true_imp hb
        · exact hbmax a ha
      · rw [if_neg hb] at h2
        have hxr : x = r := by simpa using h2
        subst hxr
        refine ⟨List.mem_cons_self x rest, ?_⟩
        intro a ha
        rcases List.mem_cons.mp ha with ha | ha
        · rw [ha]
          exact lexLe_refl x
        · exact lexLe_trans (hbmax a ha) (beats_false_imp (by simpa using hb))

lemma taggedFor_iff (u : String) (r : EventRow) : taggedFor u r = true ↔ TaggedRow u r := by
  cases h : r.utmSource with
  | none => simp [taggedFor, TaggedRow, h]
  | some s =>
    by_cases hu : r.userID = u
    · by_cases hs : s = "" <;> simp [taggedFor, TaggedRow, h, hu, hs]
    · simp [taggedFor, TaggedRow, h, hu]

lemma latestAttribution_eq_some {st : EventStore} {u : String} {r : EventRow}
    (hp : pickLatest (st.rows.filter (taggedFor u)) = some r) :
    LatestAttribution st u = (r.utmSource.getD "", true) := by
  rw [LatestAttribution, hp]

lemma latestAttribution_eq_none {st : EventStore} {u : String}
    (hp : pickLatest (st.rows.filter (taggedFor u)) = none) :
    LatestAttribution st u = ("", false) := by
  rw [LatestAttribution, hp]

/-- Shared helper: a found attribution is the utm_source of some stored row of
that subject. -/
lemma latestAttribution_mem {st : EventStore} {u : String}
    (h : (LatestAttribution st u).2 = true) :
    ∃ r ∈ st.rows, r.userID = u ∧ r.utmSource = some (LatestAttribution st u).1 := by
  cases hp : pickLatest (st.rows.filter (taggedFor u)) with
  | none => rw [latestAttribution_eq_none hp] at h; simp at h
  | some r =>
    rw [latestAttribution_eq_some hp]
    have hmem := (pickLatest_spec hp).1
    have hflt := List.mem_filter.mp hmem
    have htag := (taggedFor_iff u r).mp hflt.2
    obtain ⟨hu, s, hs, _⟩ := htag
    exact ⟨r, hflt.1, hu, by simp [hs]⟩

/-- C3: when some stored row of the subject has a present, non-empty source-tag,
`LatestAttribution` finds one with the greatest (timestamp, sequence id) pair
among all such rows (across all event kinds) and returns its tag; otherwise it
returns the not-found outcome rather than an error. -/
theorem LatestAttribution_spec (st : EventStore) (u : String) :
    ((LatestAttribution st u).2 = false ↔ ∀ r ∈ st.rows, ¬ TaggedRow u r) ∧
    ((LatestAttribution st u).2 = true →
      ∃ r ∈ st.rows, TaggedRow u r ∧ r.utmSource = some (LatestAttribution st u).1 ∧
        ∀ a ∈ st.rows, TaggedRow u a → lexLe a r) := by
  cases hp : pickLatest (st.rows.filter (taggedFor u)) with
  | none =>
    rw [latestAttribution_eq_none hp]
    have hnil := pickLatest_none.mp hp
    constructor
    · simp only [true_iff]
      intro r hr htag
      have : r ∈ st.rows.filter (taggedFor u) :=
        List.mem_filter.mpr ⟨hr, (taggedFor_iff u r).mpr htag⟩
      rw [hnil] at this
      simp at this
    · simp
  | some r =>
    rw [latestAttribution_eq_some hp]
    have hspec := pickLatest_spec hp
    have hflt := List.mem_filter.mp hspec.1
    have htag := (taggedFor_iff u r).mp hflt.2
    constructor
    · simp only [Bool.true_eq_false, false_iff, not_forall]
      push_neg
      exact ⟨r, hflt.1, htag⟩
    · intro _
      obtain ⟨hu, s, hs, hne⟩ := htag
      refine ⟨r, hflt.1, ⟨hu, s, hs, hne⟩, by simp [hs], ?_⟩
      intro a ha hataga
      exact hspec.2 a (List.mem_filter.mpr ⟨ha, (taggedFor_iff u a).mpr ⟨hataga.1, hataga.2⟩⟩)

/-- Concrete store used by the C3 witness: two tagged rows (the later one wins)
and one untagged row for subject u1. -/
def wStore3 : EventStore :=
  { rows :=
      [{ id := 1, siteID := "s1", timestamp := 10, userID := "u1", eventName := "page_view",
         utmSource := some "facebook", properties := [], dedupeKey := "a",
         ingestedAt := 1, metadata := none },
       { id := 2, siteID := "s1", timestamp := 12, userID := "u1", eventName := "signup",
         utmSource := some "google", properties := [], dedupeKey := "b",
         ingestedAt := 2, metadata := none },
       { id := 3, siteID := "s1", timestamp := 15, userID := "u1", eventName := "order_created",
         utmSource := none, properties := [], dedupeKey := "c",
         ingestedAt := 3, metadata := none }],
    nextId := 4 }

/-- Witness for C3 at a concrete input. -/
theorem LatestAttribution_spec_witness :
    ∃ r ∈ wStore3.rows, TaggedRow "u1" r ∧
      r.utmSource = some (LatestAttribution wStore3 "u1").1 ∧
      ∀ a ∈ wStore3.rows, TaggedRow "u1" a → lexLe a r :=
  (LatestAttribution_spec wStore3 "u1").2 (by decide)

/-! C10: inserts normalize the source-tag; stored tags are never blank. -/

/-- Shared helper: `InsertEvent` preserves store well-formedness. -/
lemma insert_WF (now : Int) (st : EventStore) (e : Event) (hwf : WFStore st) :
    WFStore (InsertEvent now st e).1 := by
  by_cases hdup : hasKey st e.dedupeKey
  · rw [insert_skip now st e hdup]
    exact hwf
  · rw [insert_fresh now st e (by simp [hdup])]
    intro r hr s hs
    rcases List.mem_append.mp hr with hr | hr
    · exact hwf r hr s hs
    · rw [List.mem_singleton.mp hr] at hs
      have hs2 : nullIfEmpty e.utmSource = some s := hs
      rw [nullIfEmpty] at hs2
      by_cases ht : trimSpace e.utmSource = ""
      · simp [ht] at hs2
      · rw [if_neg ht] at hs2
        have : e.utmSource = s := by simpa using hs2
        rw [← this]
        exact ht

/-- C10: every insert normalizes the source-tag — a blank (empty or
whitespace-only) tag is stored as NULL, and a stored fresh row carries exactly
`nullIfEmpty` of the request's tag; hence well-formedness (every present stored
tag has non-whitespace content) is preserved by inserts, holds for the empty
store, and `LatestAttribution` never returns a blank tag as a found result on a
well-formed store. -/
theorem InsertEvent_normalizes_utm :
    (∀ v : String, nullIfEmpty v = none ↔ trimSpace v = "") ∧
    (∀ (now : Int) (st : EventStore) (e : Event), hasKey st e.dedupeKey = false →
      (InsertEvent now st e).1.rows = st.rows ++ [freshRow now st e] ∧
      (freshRow now st e).utmSource = nullIfEmpty e.utmSource) ∧
    WFStore emptyStore ∧
    (∀ (now : Int) (st : EventStore) (e : Event), WFStore st →
      WFStore (InsertEvent now st e).1) ∧
    (∀ (st : EventStore) (u : String), WFStore st →
      (LatestAttribution st u).2 = true → trimSpace (LatestAttribution st u).1 ≠ "") := by
  refine ⟨?_, ?_, ?_, insert_WF, ?_⟩
  · intro v
    rw [nullIfEmpty]
    by_cases ht : trimSpace v = "" <;> simp [ht]
  · intro now st e h
    rw [insert_fresh now st e h]
    exact ⟨rfl, rfl⟩
  · intro r hr
    simp [emptyStore] at hr
  · intro st u hwf hfound
    obtain ⟨r, hr, _, hs⟩ := latestAttribution_mem hfound
    exact hwf r hr _ hs

/-- Concrete event with a whitespace-only tag, used by the C10 witness. -/
def wEventBlank : Event :=
  { siteID := "s1", timestamp := 11, userID := "u2", eventName := "signup",
    utmSource := "   ", properties := [], dedupeKey := "signup:s1:u2",
    ingestedAt := none, metadata := [] }

/-- Witness for C10 at a concrete input: inserting a whitespace-only tag into
the (well-formed) empty store yields a well-formed store again, and the
appended row indeed stores the tag as NULL. -/
theorem InsertEvent_normalizes_utm_witness :
    WFStore (InsertEvent 5 emptyStore wEventBlank).1 ∧
    ((InsertEvent 5 emptyStore wEventBlank).1.rows = emptyStore.rows ++
        [freshRow 5 emptyStore wEventBlank] ∧
      (freshRow 5 emptyStore wEventBlank).utmSource = nullIfEmpty wEventBlank.utmSource) :=
  ⟨InsertEvent_normalizes_utm.2.2.2.1 5 emptyStore wEventBlank
      InsertEvent_normalizes_utm.2.2.1,
    InsertEvent_normalizes_utm.2.1 5 emptyStore wEventBlank (by decide)⟩

/-! Lemmas about `persistUsers` / `persistOrders`: key monotonicity,
decomposition, and the behaviour on already-persisted pages. -/

/-- State after persisting a list of users. -/
def persistUsersState (now : Int) (site : RegisteredSite) (us : List BuilderUser)
    (st : EventStore) : EventStore :=
  (persistUsers now site us st).2.2

/-- State after persisting a list of orders. -/
def persistOrdersState (now : Int) (site : RegisteredSite) (os : List BuilderOrder)
    (st : EventStore) : EventStore :=
  (persistOrders now site os st).2.2

lemma persistUsersState_nil (now : Int) (site : RegisteredSite) (st : EventStore) :
    persistUsersState now site [] st = st := rfl

lemma persistUsersState_cons (now : Int) (site : RegisteredSite) (u : BuilderUser)
    (rest : List BuilderUser) (st : EventStore) :
    persistUsersState now site (u :: rest) st =
      persistUsersState now site rest
        (InsertEvent now st (signupEvent site u (LatestAttribution st u.id).1
          (LatestAttribution st u.id).2)).1 := by
  simp only [persistUsersState]
  simp only [persistUsers]
  split <;> rfl

lemma persistUsers_rows_mono (now : Int) (site : RegisteredSite) (us : List BuilderUser) :
    ∀ (st : EventStore) (r : EventRow), r ∈ st.rows →
      r ∈ (persistUsersState now site us st).rows := by
  induction us with
  | nil => intro st r hr; rw [persistUsersState_nil]; exact hr
  | cons u rest ih =>
    intro st r hr
    rw [persistUsersState_cons]
    exact ih _ r (insert_rows_mono _ _ _ r hr)

lemma persistUsers_hasKey_mono (now : Int) (site : RegisteredSite) (us : List BuilderUser) :
    ∀ (st : EventStore) (k : String), hasKey st k = true →
      hasKey (persistUsersState now site us st) k = true := by
  induction us with
  | nil => intro st k h; rw [persistUsersState_nil]; exact h
  | cons u rest ih =>
    intro st k h
    rw [persistUsersState_cons]
    exact ih _ k (insert_hasKey_mono _ _ _ _ h)

lemma persistUsers_keys (now : Int) (site : RegisteredSite) (us : List BuilderUser) :
    ∀ (st : EventStore), ∀ u ∈ us,
      hasKey (persistUsersState now site us st) (signupKey site u) = true := by
  induction us with
  | nil => intro st u hu; simp at hu
  | cons v rest ih =>
    intro st u hu
    rw [persistUsersState_cons]
    rcases List.mem_cons.mp hu with hu | hu
    · subst hu
      exact persistUsers_hasKey_mono now site rest _ _
        (insert_self_key now st (signupEvent site u (LatestAttribution st u.id).1
          (LatestAttribution st u.id).2))
    · exact ih _ u hu

lemma persistUsers_key_rows (now : Int) (site : RegisteredSite) (us : List BuilderUser) :
    ∀ (st : EventStore) (k : String), hasKey st k = true →
      ∀ r ∈ (persistUsersState now site us st).rows, r.dedupeKey = k → r ∈ st.rows := by
  induction us with
  | nil => intro st k _ r hr _; rw [persistUsersState_nil] at hr; exact hr
  | cons u rest ih =>
    intro st k hk r hr hrk
    rw [persistUsersState_cons] at hr
    exact insert_key_rows now st _ k hk r
      (ih _ k (insert_hasKey_mono _ _ _ _ hk) r hr hrk) hrk

lemma persistUsers_WF (now : Int) (site : RegisteredSite) (us : List BuilderUser) :
    ∀ st : EventStore, WFStore st → WFStore (persistUsersState now site us st) := by
  induction us with
  | nil => intro st h; rw [persistUsersState_nil]; exact h
  | cons u rest ih =>
    intro st h
    rw [persistUsersState_cons]
    exact ih _ (insert_WF _ _ _ h)

lemma persistUsersState_append (now : Int) (site : RegisteredSite) :
    ∀ (l1 l2 : List BuilderUser) (st : EventStore),
      persistUsersState now site (l1 ++ l2) st =
        persistUsersState now site l2 (persistUsersState now site l1 st) := by
  intro l1
  induction l1 with
  | nil => intro l2 st; rw [List.nil_append, persistUsersState_nil]
  | cons u rest ih =>
    intro l2 st
    rw [List.cons_append, persistUsersState_cons, persistUsersState_cons, ih]

lemma persistUsers_count (now : Int) (site : RegisteredSite) (us : List BuilderUser) :
    ∀ st : EventStore,
      (persistUsers now site us st).1 + (persistUsers now site us st).2.1 =
        (us.length : Int) := by
  induction us with
  | nil => intro st; simp [persistUsers]
  | cons u rest ih =>
    intro st
    have h := ih (InsertEvent now st (signupEvent site u (LatestAttribution st u.id).1
      (LatestAttribution st u.id).2)).1
    simp only [persistUsers]
    split <;> (simp only [List.length_cons]; push_cast; omega)

lemma persistUsers_skipAll (now : Int) (site : RegisteredSite) (us : List BuilderUser) :
    ∀ st : EventStore, (∀ u ∈ us, hasKey st (signupKey site u) = true) →
      persistUsers now site us st = (0, (us.length : Int), st) := by
  induction us with
  | nil => intro st _; simp [persistUsers]
  | cons u rest ih =>
    intro st h
    have hk : hasKey st (signupKey site u) = true := h u (List.mem_cons_self u rest)
    have hins : InsertEvent now st (signupEvent site u (LatestAttribution st u.id).1
        (LatestAttribution st u.id).2) = (st, false) :=
      insert_skip now st _ hk
    have hrest := ih st fun v hv => h v (List.mem_cons_of_mem u hv)
    simp only [persistUsers, hins, hrest]
    simp only [List.length_cons]
    push_cast
    rfl

lemma persistOrdersState_nil (now : Int) (site : RegisteredSite) (st : EventStore) :
    persistOrdersState now site [] st = st := rfl

lemma persistOrdersState_cons (now : Int) (site : RegisteredSite) (o : BuilderOrder)
    (rest : List BuilderOrder) (st : EventStore) :
    persistOrdersState now site (o :: rest) st =
      persistOrdersState now site rest
        (InsertEvent now st (orderEvent site o (LatestAttribution st o.userID).1
          (LatestAttribution st o.userID).2)).1 := by
  simp only [persistOrdersState]
  simp only [persistOrders]
  split <;> rfl

lemma persistOrders_rows_mono (now : Int) (site : RegisteredSite) (os : List BuilderOrder) :
    ∀ (st : EventStore) (r : EventRow), r ∈ st.rows →
      r ∈ (persistOrdersState now site os st).rows := by
  induction os with
  | nil => intro st r hr; rw [persistOrdersState_nil]; exact hr
  | cons o rest ih =>
    intro st r hr
    rw [persistOrdersState_cons]
    exact ih _ r (insert_rows_mono _ _ _ r hr)

lemma persistOrders_hasKey_mono (now : Int) (site : RegisteredSite) (os : List BuilderOrder) :
    ∀ (st : EventStore) (k : String), hasKey st k = true →
      hasKey (persistOrdersState now site os st) k = true := by
  induction os with
  | nil => intro st k h; rw [persistOrdersState_nil]; exact h
  | cons o rest ih =>
    intro st k h
    rw [persistOrdersState_cons]
    exact ih _ k (insert_hasKey_mono _ _ _ _ h)

lemma persistOrders_key_rows (now : Int) (site : RegisteredSite) (os : List BuilderOrder) :
    ∀ (st : EventStore) (k : String), hasKey st k = true →
      ∀ r ∈ (persistOrdersState now site os st).rows, r.dedupeKey = k → r ∈ st.rows := by
  induction os with
  | nil => intro st k _ r hr _; rw [persistOrdersState_nil] at hr; exact hr
  | cons o rest ih =>
    intro st k hk r hr hrk
    rw [persistOrdersState_cons] at hr
    exact insert_key_rows now st _ k hk r
      (ih _ k (insert_hasKey_mono _ _ _ _ hk) r hr hrk) hrk

lemma persistOrders_WF (now : Int) (site : RegisteredSite) (os : List BuilderOrder) :
    ∀ st : EventStore, WFStore st → WFStore (persistOrdersState now site os st) := by
  induction os with
  | nil => intro st h; rw [persistOrdersState_nil]; exact h
  | cons o rest ih =>
    intro st h
    rw [persistOrdersState_cons]
    exact ih _ (insert_WF _ _ _ h)

lemma persistOrdersState_append (now : Int) (site : RegisteredSite) :
    ∀ (l1 l2 : List BuilderOrder) (st : EventStore),
      persistOrdersState now site (l1 ++ l2) st =
        persistOrdersState now site l2 (persistOrdersState now site l1 st) := by
  intro l1
  induction l1 with
  | nil => intro l2 st; rw [List.nil_append, persistOrdersState_nil]
  | cons o rest ih =>
    intro l2 st
    rw [List.cons_append, persistOrdersState_cons, persistOrdersState_cons, ih]

/-! C4: attribution is carried forward onto synced events. -/

/-- C4: for every remote entity (user or order) at position `j` of the page
list whose dedupe key is still fresh when it is reached, the row the sync
persists for it carries as its source-tag exactly the subject's latest
attribution looked up at that point (the store state after the first `j`
entities), and NULL when that lookup finds none; such a row exists in the final
store, and it is the only row with that key. -/
theorem persist_carries_attribution :
    (∀ (now : Int) (site : RegisteredSite) (us : List BuilderUser) (st : EventStore)
      (j : Nat) (hj : j < us.length), WFStore st →
      hasKey (persistUsersState now site (us.take j) st)
        (signupKey site (us.get ⟨j, hj⟩)) = false →
      ((∃ r ∈ (persistUsersState now site us st).rows,
          r.dedupeKey = signupKey site (us.get ⟨j, hj⟩)) ∧
       (∀ r ∈ (persistUsersState now site us st).rows,
          r.dedupeKey = signupKey site (us.get ⟨j, hj⟩) →
          r.utmSource =
            (if (LatestAttribution (persistUsersState now site (us.take j) st)
                  (us.get ⟨j, hj⟩).id).2
             then some (LatestAttribution (persistUsersState now site (us.take j) st)
                  (us.get ⟨j, hj⟩).id).1
             else none)))) ∧
    (∀ (now : Int) (site : RegisteredSite) (os : List BuilderOrder) (st : EventStore)
      (j : Nat) (hj : j < os.length), WFStore st →
      hasKey (persistOrdersState now site (os.take j) st)
        (orderKey site (os.get ⟨j, hj⟩)) = false →
      ((∃ r ∈ (persistOrdersState now site os st).rows,
          r.dedupeKey = orderKey site (os.get ⟨j, hj⟩)) ∧
       (∀ r ∈ (persistOrdersState now site os st).rows,
          r.dedupeKey = orderKey site (os.get ⟨j, hj⟩) →
          r.utmSource =
            (if (LatestAttribution (persistOrdersState now site (os.take j) st)
                  (os.get ⟨j, hj⟩).userID).2
             then some (LatestAttribution (persistOrdersState now site (os.take j) st)
                  (os.get ⟨j, hj⟩).userID).1
             else none)))) := by
  constructor
  · intro now site us st j hj hwf hkey
    set u := us.get ⟨j, hj⟩ with hu
    set stj := persistUsersState now site (us.take j) st with hstj
    have hwfj : WFStore stj := persistUsers_WF now site (us.take j) st hwf
    set la := LatestAttribution stj u.id with hla
    have htake : us.take (j + 1) = us.take j ++ [u] := (List.take_concat_get' us j hj).symm
    have hdec : persistUsersState now site us st =
        persistUsersState now site (us.drop (j + 1))
          (persistUsersState now site [u] stj) := by
      conv_lhs => rw [← List.take_append_drop (j + 1) us]
      rw [persistUsersState_append, htake, persistUsersState_append, ← hstj]
    have hstep : persistUsersState now site [u] stj =
        (InsertEvent now stj (signupEvent site u la.1 la.2)).1 := by
      rw [persistUsersState_cons, persistUsersState_nil, ← hla]
    have hkeyev : (signupEvent site u la.1 la.2).dedupeKey = signupKey site u := rfl
    have hfr : (InsertEvent now stj (signupEvent site u la.1 la.2)).1.rows =
        stj.rows ++ [freshRow now stj (signupEvent site u la.1 la.2)] := by
      rw [insert_fresh now stj _ (by rw [hkeyev]; exact hkey)]
    have hutm : (freshRow now stj (signupEvent site u la.1 la.2)).utmSource =
        (if la.2 then some la.1 else none) := by
      cases hfound : la.2 with
      | false =>
        show nullIfEmpty "" = none
        decide
      | true =>
        obtain ⟨r, hr, _, hs⟩ := @latestAttribution_mem stj u.id
          (by rw [← hla]; exact hfound)
        rw [← hla] at hs
        have htrim : trimSpace la.1 ≠ "" := hwfj r hr _ hs
        show nullIfEmpty la.1 = some la.1
        rw [nullIfEmpty, if_neg htrim]
    constructor
    · refine ⟨freshRow now stj (signupEvent site u la.1 la.2), ?_, rfl⟩
      rw [hdec, hstep]
      apply persistUsers_rows_mono
      rw [hfr]
      exact List.mem_append_right _ (List.mem_singleton.mpr rfl)
    · intro r hr hrk
      rw [hdec, hstep] at hr
      have hk1 : hasKey (InsertEvent now stj (signupEvent site u la.1 la.2)).1
          (signupKey site u) = true := by
        rw [← hkeyev]
        exact insert_self_key now stj _
      have hr2 := persistUsers_key_rows now site (us.drop (j + 1)) _ _ hk1 r hr hrk
      rw [hfr] at hr2
      rcases List.mem_append.mp hr2 with hr3 | hr3
      · exfalso
        have : hasKey stj (signupKey site u) = true := by
          rw [hasKey, List.any_eq_true]
          exact ⟨r, hr3, by simp [hrk]⟩
        rw [this] at hkey
        exact Bool.true_eq_false.mp hkey
      · rw [List.mem_singleton.mp hr3]
        exact hutm
  · intro now site os st j hj hwf hkey
    set o := os.get ⟨j, hj⟩ with ho
    set stj := persistOrdersState now site (os.take j) st with hstj
    have hwfj : WFStore stj := persistOrders_WF now site (os.take j) st hwf
    set la := LatestAttribution stj o.userID with hla
    have htake : os.take (j + 1) = os.take j ++ [o] := (List.take_concat_get' os j hj).symm
    have hdec : persistOrdersState now site os st =
        persistOrdersState now site (os.drop (j + 1))
          (persistOrdersState now site [o] stj) := by
      conv_lhs => rw [← List.take_append_drop (j + 1) os]
      rw [persistOrdersState_append, htake, persistOrdersState_append, ← hstj]
    have hstep : persistOrdersState now site [o] stj =
        (InsertEvent now stj (orderEvent site o la.1 la.2)).1 := by
      rw [persistOrdersState_cons, persistOrdersState_nil, ← hla]
    have hkeyev : (orderEvent site o la.1 la.2).dedupeKey = orderKey site o := rfl
    have hfr : (InsertEvent now stj (orderEvent site o la.1 la.2)).1.rows =
        stj.rows ++ [freshRow now stj (orderEvent site o la.1 la.2)] := by
      rw [insert_fresh now stj _ (by rw [hkeyev]; exact hkey)]
    have hutm : (freshRow now stj (orderEvent site o la.1 la.2)).utmSource =
        (if la.2 then some la.1 else none) := by
      cases hfound : la.2 with
      | false =>
        show nullIfEmpty "" = none
        decide
      | true =>
        obtain ⟨r, hr, _, hs⟩ := @latestAttribution_mem stj o.userID
          (by rw [← hla]; exact hfound)
        rw [← hla] at hs
        have htrim : trimSpace la.1 ≠ "" := hwfj r hr _ hs
        show nullIfEmpty la.1 = some la.1
        rw [nullIfEmpty, if_neg htrim]
    constructor
    · refine ⟨freshRow now stj (orderEvent site o la.1 la.2), ?_, rfl⟩
      rw [hdec, hstep]
      apply persistOrders_rows_mono
      rw [hfr]
      exact List.mem_append_right _ (List.mem_singleton.mpr rfl)
    · intro r hr hrk
      rw [hdec, hstep] at hr
      have hk1 : hasKey (InsertEvent now stj (orderEvent site o la.1 la.2)).1
          (orderKey site o) = true := by
        rw [← hkeyev]
        exact insert_self_key now stj _
      have hr2 := persistOrders_key_rows now site (os.drop (j + 1)) _ _ hk1 r hr hrk
      rw [hfr] at hr2
      rcases List.mem_append.mp hr2 with hr3 | hr3
      · exfalso
        have : hasKey stj (orderKey site o) = true := by
          rw [hasKey, List.any_eq_true]
          exact ⟨r, hr3, by simp [hrk]⟩
        rw [this] at hkey
        exact Bool.true_eq_false.mp hkey
      · rw [List.mem_singleton.mp hr3]
        exact hutm

/-! The pagination loop: trace correspondence and the C5/C6/C7 claims. -/

lemma syncSiteT_fst {ε σ : Type} (fetch : Int → σ → Except ε (PagedResult × σ))
    (ctxErr : Nat → Bool) :
    ∀ (fuel i : Nat) (p : Int) (sum : SyncSummary) (s : σ),
      (syncSiteT fetch ctxErr fuel i p sum s).1 = syncSite fetch ctxErr fuel i p sum s := by
  intro fuel
  induction fuel with
  | zero => intro i p sum s; rfl
  | succ f ih =>
    intro i p sum s
    simp only [syncSiteT, syncSite]
    by_cases hc : ctxErr i
    · simp [hc]
    · simp only [hc, Bool.false_eq_true, if_false]
      cases hf : fetch p s with
      | error e => simp
      | ok pr =>
        obtain ⟨res, s2⟩ := pr
        by_cases hm : res.hasMore
        · simp [hm, ih]
        · simp [hm]

lemma syncSiteT_total_aux {ε σ : Type} (fetch : Int → σ → Except ε (PagedResult × σ)) :
    ∀ (fuel i : Nat) (p : Int) (sum : SyncSummary) (s : σ) (sum2 : SyncSummary) (s2 : σ)
      (tr : List (Int × PagedResult)),
      syncSiteT fetch noCancel fuel i p sum s = (.ok sum2 s2, tr) →
      (sum2.total = sum.total ∨ ∃ q ∈ tr, sum2.total = q.2.total) ∧
      (∀ q ∈ tr, q.2.total ≤ sum2.total) ∧ sum.total ≤ sum2.total ∧ tr ≠ [] := by
  intro fuel
  induction fuel with
  | zero =>
    intro i p sum s sum2 s2 tr h
    simp [syncSiteT] at h
  | succ f ih =>
    intro i p sum s sum2 s2 tr h
    simp only [syncSiteT, noCancel, Bool.false_eq_true, if_false] at h
    cases hf : fetch p s with
    | error e => rw [hf] at h; simp at h
    | ok pr =>
      obtain ⟨res, s3⟩ := pr
      rw [hf] at h
      by_cases hm : res.hasMore
      · simp only [hm, if_true] at h
        rcases hrest : syncSiteT fetch noCancel f (i + 1) (nextPageOf res p)
          (stepSummary sum res) s3 with ⟨out, tr2⟩
        rw [hrest] at h
        have hout : out = .ok sum2 s2 := congrArg Prod.fst h
        have htr : tr = (p, res) :: tr2 := (congrArg Prod.snd h).symm
        rw [hout] at hrest
        obtain ⟨hA, hB, hC, _⟩ := ih (i + 1) (nextPageOf res p) (stepSummary sum res) s3
          sum2 s2 tr2 hrest
        have hstep_total : (stepSummary sum res).total =
            if res.total > sum.total then res.total else sum.total := rfl
        refine ⟨?_, ?_, ?_, by rw [htr]; exact List.cons_ne_nil _ _⟩
        · rcases hA with hA | ⟨q, hq, hqt⟩
          · rw [hstep_total] at hA
            by_cases hgt : res.total > sum.total
            · right
              exact ⟨(p, res), by rw [htr]; exact List.mem_cons_self _ _, by
                rw [hA, if_pos hgt]⟩
            · left
              rw [hA, if_neg hgt]
          · right
            exact ⟨q, by rw [htr]; exact List.mem_cons_of_mem _ hq, hqt⟩
        · intro q hq
          rw [htr] at hq
          rcases List.mem_cons.mp hq with hq | hq
          · rw [hq]
            show res.total ≤ sum2.total
            refine le_trans ?_ hC
            rw [hstep_total]
            by_cases hgt : res.total > sum.total
            · rw [if_pos hgt]
            · rw [if_neg hgt]; omega
          · exact hB q hq
        · refine le_trans ?_ hC
          rw [hstep_total]
          by_cases hgt : res.total > sum.total
          · rw [if_pos hgt]; omega
          · rw [if_neg hgt]
      · simp only [hm, Bool.false_eq_true, if_false] at h
        have hok : RunOutcome.ok (ε := ε) (σ := σ) (stepSummary sum res) s3 = .ok sum2 s2 :=
          congrArg Prod.fst h
        have htr : tr = [(p, res)] := (congrArg Prod.snd h).symm
        have hsum : stepSummary sum res = sum2 := by
          cases hok
          rfl
        have hstep_total : (stepSummary sum res).total =
            if res.total > sum.total then res.total else sum.total := rfl
        refine ⟨?_, ?_, ?_, by rw [htr]; exact List.cons_ne_nil _ _⟩
        · rw [← hsum, hstep_total]
          by_cases hgt : res.total > sum.total
          · right
            exact ⟨(p, res), by rw [htr]; exact List.mem_cons_self _ _, by rw [if_pos hgt]⟩
          · left
            rw [if_neg hgt]
        · intro q hq
          rw [htr] at hq
          rw [List.mem_singleton.mp hq]
          show res.total ≤ sum2.total
          rw [← hsum, hstep_total]
          by_cases hgt : res.total > sum.total
          · rw [if_pos hgt]
          · rw [if_neg hgt]; omega
        · rw [← hsum, hstep_total]
          by_cases hgt : res.total > sum.total
          · rw [if_pos hgt]; omega
          · rw [if_neg hgt]

/-- C6: for a completed run started on an empty summary, the summary's
total_remote is the maximum of the per-page totals reported by the fetched
pages of the run (pages report counts, hence the nonnegativity hypothesis): it
is attained by some fetched page and bounds every fetched page's total. -/
theorem syncSite_total_max {ε σ : Type} (fetch : Int → σ → Except ε (PagedResult × σ))
    (fuel i : Nat) (p : Int) (s : σ) (sum2 : SyncSummary) (s2 : σ)
    (tr : List (Int × PagedResult))
    (h : syncSiteT fetch noCancel fuel i p zeroSummary s = (.ok sum2 s2, tr))
    (hnn : ∀ q ∈ tr, 0 ≤ q.2.total) :
    syncSite fetch noCancel fuel i p zeroSummary s = .ok sum2 s2 ∧
    (∃ q ∈ tr, q.2.total = sum2.total) ∧ (∀ q ∈ tr, q.2.total ≤ sum2.total) := by
  obtain ⟨hA, hB, _, hne⟩ := syncSiteT_total_aux fetch fuel i p zeroSummary s sum2 s2 tr h
  refine ⟨by rw [← syncSiteT_fst, h], ?_, hB⟩
  rcases hA with hA | ⟨q, hq, hqt⟩
  · obtain ⟨q0, hq0⟩ := List.exists_mem_of_ne_nil tr hne
    refine ⟨q0, hq0, ?_⟩
    have h1 := hB q0 hq0
    have h2 := hnn q0 hq0
    have h3 : sum2.total = 0 := hA
    omega
  · exact ⟨q, hq, hqt.symm⟩

/-- C5: when the fetches along the visit sequence all succeed, pages before the
`k`-th report more data (with the loop's next page being the explicitly named
one or current+1), and the `k`-th page reports no more, the pagination loop
terminates right there for any fuel at least `k+1`: it issues exactly the
`k+1` fetches of the visit sequence (in order) and the summary's
pages-processed count grows by exactly that number of fetches. -/
theorem syncSite_pagination {ε σ : Type} (fetch : Int → σ → Except ε (PagedResult × σ))
    (k : Nat) (visit : Nat → Int) (rs : Nat → PagedResult) (ss : Nat → σ)
    (hstep : ∀ i ≤ k, fetch (visit i) (ss i) = .ok (rs i, ss (i + 1)))
    (hmore : ∀ i < k, (rs i).hasMore = true)
    (hnext : ∀ i < k, visit (i + 1) = nextPageOf (rs i) (visit i))
    (hlast : (rs k).hasMore = false)
    (fuel : Nat) (hfuel : k + 1 ≤ fuel) (j : Nat) (sum : SyncSummary) :
    ∃ sum2 : SyncSummary,
      syncSiteT fetch noCancel fuel j (visit 0) sum (ss 0) =
        (.ok sum2 (ss (k + 1)), (List.range (k + 1)).map fun i => (visit i, rs i)) ∧
      sum2.pages = sum.pages + (k + 1) := by
  induction k generalizing visit rs ss fuel j sum with
  | zero =>
    obtain ⟨f, rfl⟩ : ∃ f, fuel = f + 1 := ⟨fuel - 1, by omega⟩
    refine ⟨stepSummary sum (rs 0), ?_, by simp [stepSummary]⟩
    simp only [syncSiteT, noCancel, Bool.false_eq_true, if_false]
    rw [hstep 0 (le_refl 0)]
    simp [hlast, List.range_succ]
  | succ k ih =>
    obtain ⟨f, rfl⟩ : ∃ f, fuel = f + 1 := ⟨fuel - 1, by omega⟩
    have h0 := hstep 0 (Nat.zero_le _)
    have hm0 := hmore 0 (Nat.succ_pos k)
    obtain ⟨sum2, hrun, hpages⟩ := ih (fun i => visit (i + 1)) (fun i => rs (i + 1))
      (fun i => ss (i + 1)) (fun i hi => hstep (i + 1) (by omega))
      (fun i hi => hmore (i + 1) (by omega)) (fun i hi => hnext (i + 1) (by omega))
      hlast f (by omega) (j + 1) (stepSummary sum (rs 0))
    refine ⟨sum2, ?_, by rw [hpages]; simp only [stepSummary]; omega⟩
    simp only [syncSiteT, noCancel, Bool.false_eq_true, if_false]
    rw [h0]
    simp only [hm0, if_true]
    rw [← hnext 0 (Nat.succ_pos k)]
    rw [hrun]
    refine Prod.ext_iff.mpr ⟨rfl, ?_⟩
    show (visit 0, rs 0) :: (List.range (k + 1)).map (fun i => (visit (i + 1), rs (i + 1))) =
      (List.range (k + 1 + 1)).map fun i => (visit i, rs i)
    conv_rhs => rw [List.range_succ_eq_map, List.map_cons, List.map_map]
    rfl

lemma foldl_stepSummary_pages (rs : Nat → PagedResult) :
    ∀ (l : List Nat) (sum : SyncSummary),
      (l.foldl (fun a i => stepSummary a (rs i)) sum).pages = sum.pages + l.length := by
  intro l
  induction l with
  | nil => intro sum; simp
  | cons x rest ih =>
    intro sum
    simp only [List.foldl_cons, List.length_cons]
    rw [ih]
    simp only [stepSummary]
    push_cast
    omega

/-- C7: when the fetches along the visit sequence succeed for the first `k`
pages (each reporting more data, the loop advancing to the named next page or
current+1) and the fetch of the `k`-th visited page fails with `e`, the loop
stops at that step: it returns the failing error together with the summary
accumulated over the `k` pages processed before the failure (in particular
`pages = k`), and the state it returns is exactly the accumulated state
`ss k` — every event persisted by the earlier steps is still there, nothing is
rolled back. -/
theorem syncSite_error_propagation {ε σ : Type} (fetch : Int → σ → Except ε (PagedResult × σ))
    (k : Nat) (visit : Nat → Int) (rs : Nat → PagedResult) (ss : Nat → σ)
    (hstep : ∀ i < k, fetch (visit i) (ss i) = .ok (rs i, ss (i + 1)))
    (hmore : ∀ i < k, (rs i).hasMore = true)
    (hnext : ∀ i < k, visit (i + 1) = nextPageOf (rs i) (visit i))
    (e : ε) (herr : fetch (visit k) (ss k) = .error e)
    (fuel : Nat) (hfuel : k + 1 ≤ fuel) (j : Nat) (sum : SyncSummary) :
    syncSiteT fetch noCancel fuel j (visit 0) sum (ss 0) =
      (.err e ((List.range k).foldl (fun a i => stepSummary a (rs i)) sum) (ss k),
        (List.range k).map fun i => (visit i, rs i)) ∧
    ((List.range k).foldl (fun a i => stepSummary a (rs i)) sum).pages = sum.pages + k := by
  refine ⟨?_, by rw [foldl_stepSummary_pages]; simp⟩
  induction k generalizing visit rs ss fuel j sum with
  | zero =>
    obtain ⟨f, rfl⟩ : ∃ f, fuel = f + 1 := ⟨fuel - 1, by omega⟩
    simp only [syncSiteT, noCancel, Bool.false_eq_true, if_false]
    rw [herr]
    simp [List.range_zero]
  | succ k ih =>
    obtain ⟨f, rfl⟩ : ∃ f, fuel = f + 1 := ⟨fuel - 1, by omega⟩
    have h0 := hstep 0 (Nat.succ_pos k)
    have hm0 := hmore 0 (Nat.succ_pos k)
    have ihh := ih (fun i => visit (i + 1)) (fun i => rs (i + 1)) (fun i => ss (i + 1))
      (fun i hi => hstep (i + 1) (by omega)) (fun i hi => hmore (i + 1) (by omega))
      (fun i hi => hnext (i + 1) (by omega)) herr f (by omega) (j + 1)
      (stepSummary sum (rs 0))
    simp only [syncSiteT, noCancel, Bool.false_eq_true, if_false]
    rw [h0]
    simp only [hm0, if_true]
    rw [← hnext 0 (Nat.succ_pos k)]
    rw [ihh]
    have hfold : (List.range (k + 1)).foldl (fun a i => stepSummary a (rs i)) sum =
        (List.range k).foldl (fun a i => stepSummary a (rs (i + 1)))
          (stepSummary sum (rs 0)) := by
      rw [List.range_succ_eq_map, List.foldl_cons, List.foldl_map]
    refine Prod.ext_iff.mpr ⟨?_, ?_⟩
    · show RunOutcome.err e ((List.range k).foldl (fun a i => stepSummary a (rs (i + 1)))
        (stepSummary sum (rs 0))) (ss (k + 1)) = _
      rw [← hfold]
    · show (visit 0, rs 0) :: (List.range k).map (fun i => (visit (i + 1), rs (i + 1))) =
        (List.range (k + 1)).map fun i => (visit i, rs i)
      conv_rhs => rw [List.range_succ_eq_map, List.map_cons, List.map_map]
      rfl

/-! C2: an immediate identical re-run of a user sync is idempotent. -/

lemma syncUsers_rerun_aux (remote : Int → Except String PagedUsersResponse)
    (now now2 : Int) (site : RegisteredSite) :
    ∀ (fuel i i2 : Nat) (p : Int) (st : EventStore) (sum sum2 sum1 : SyncSummary)
      (st1 : EventStore),
      sum2.total = sum.total →
      syncSite (fetchUsersPage remote now site) noCancel fuel i p sum st = .ok sum1 st1 →
      (∀ k, hasKey st k = true → hasKey st1 k = true) ∧
      syncSite (fetchUsersPage remote now2 site) noCancel fuel i2 p sum2 st1 =
        .ok { inserted := sum2.inserted,
              skipped := sum2.skipped + ((sum1.inserted - sum.inserted) +
                (sum1.skipped - sum.skipped)),
              pages := sum2.pages + (sum1.pages - sum.pages),
              total := sum1.total } st1 := by
  intro fuel
  induction fuel with
  | zero =>
    intro i i2 p st sum sum2 sum1 st1 htot h
    simp [syncSite] at h
  | succ f ih =>
    intro i i2 p st sum sum2 sum1 st1 htot h
    simp only [syncSite, noCancel, Bool.false_eq_true, if_false] at h
    cases hremote : remote p with
    | error e =>
      simp only [fetchUsersPage, hremote] at h
      exact RunOutcome.noConfusion h
    | ok resp =>
      simp only [fetchUsersPage, hremote] at h
      have hcnt : (persistUsers now site resp.users st).1 +
          (persistUsers now site resp.users st).2.1 = (resp.users.length : Int) :=
        persistUsers_count now site resp.users st
      by_cases hm : resp.hasMore = true
      · rw [if_pos hm] at h
        obtain ⟨hmono, hrun2⟩ :=
          ih (i + 1) (i2 + 1)
            (nextPageOf
              { page := resp.page, total := resp.total, hasMore := resp.hasMore,
                nextPage := resp.nextPage, inserted := (persistUsers now site resp.users st).1,
                skipped := (persistUsers now site resp.users st).2.1 } p)
            (persistUsers now site resp.users st).2.2
            (stepSummary sum
              { page := resp.page, total := resp.total, hasMore := resp.hasMore,
                nextPage := resp.nextPage, inserted := (persistUsers now site resp.users st).1,
                skipped := (persistUsers now site resp.users st).2.1 })
            (stepSummary sum2
              { page := resp.page, total := resp.total, hasMore := resp.hasMore,
                nextPage := resp.nextPage, inserted := 0,
                skipped := (resp.users.length : Int) })
            sum1 st1 (by simp only [stepSummary]; rw [htot]) h
        have hkeys1 : ∀ v ∈ resp.users, hasKey st1 (signupKey site v) = true :=
          fun v hv => hmono _ (persistUsers_keys now site resp.users st v hv)
        have hskip : persistUsers now2 site resp.users st1 =
            (0, (resp.users.length : Int), st1) :=
          persistUsers_skipAll now2 site resp.users st1 hkeys1
        refine ⟨fun k hk => hmono k
          (persistUsers_hasKey_mono now site resp.users st k hk), ?_⟩
        simp only [syncSite, noCancel, Bool.false_eq_true, if_false]
        simp only [fetchUsersPage, hremote, hskip]
        rw [if_pos hm]
        refine Eq.trans (by exact hrun2) ?_
        congr 1
        simp only [stepSummary]
        rw [SyncSummary.mk.injEq]
        refine ⟨by omega, by omega, by omega, rfl⟩
      · rw [if_neg hm] at h
        injection h with h1 h2
        have hmono : ∀ k, hasKey st k = true → hasKey st1 k = true := by
          intro k hk
          rw [← h2]
          exact persistUsers_hasKey_mono now site resp.users st k hk
        have hkeys1 : ∀ v ∈ resp.users, hasKey st1 (signupKey site v) = true := by
          intro v hv
          rw [← h2]
          exact persistUsers_keys now site resp.users st v hv
        have hskip : persistUsers now2 site resp.users st1 =
            (0, (resp.users.length : Int), st1) :=
          persistUsers_skipAll now2 site resp.users st1 hkeys1
        refine ⟨hmono, ?_⟩
        simp only [syncSite, noCancel, Bool.false_eq_true, if_false]
        simp only [fetchUsersPage, hremote, hskip]
        rw [if_neg hm]
        congr 1
        rw [← h1]
        simp only [stepSummary]
        rw [SyncSummary.mk.injEq]
        refine ⟨by omega, by omega, by omega, by rw [htot]⟩

/-- C2: if a user sync run over a fixed remote page oracle completes with
summary `sum1` and final store `st1`, then immediately re-running the identical
sync (same oracle, same start page, same fuel) over `st1` completes too,
leaves the store exactly `st1`, and reports 0 inserted, a skipped count equal
to the number of remote entities processed (every entity the first run either
inserted or skipped), the same pages-processed count and the same total_remote
— because each entity's dedupe key is recomputed deterministically and already
exists. -/
theorem syncUsers_rerun_idempotent (remote : Int → Except String PagedUsersResponse)
    (now now2 : Int) (site : RegisteredSite) (fuel : Nat) (page : Int)
    (st0 st1 : EventStore) (sum1 : SyncSummary)
    (h : syncUsers remote now site fuel page st0 = .ok sum1 st1) :
    syncUsers remote now2 site fuel page st1 =
      .ok { inserted := 0, skipped := sum1.inserted + sum1.skipped,
            pages := sum1.pages, total := sum1.total } st1 := by
  have h2 := (syncUsers_rerun_aux remote now now2 site fuel 0 0 page st0
    zeroSummary zeroSummary sum1 st1 rfl h).2
  rw [syncUsers, h2]
  congr 1
  simp only [zeroSummary]
  rw [SyncSummary.mk.injEq]
  refine ⟨rfl, by omega, by omega, rfl⟩

/-! C8: how the declared retry policy actually classifies the errors the
activities raise. -/

/-- C8 at the failing input: the errors the orchestrated activities actually
raise for an unknown site (`sql.ErrNoRows` from `GetSite`) and for a rejected
access key (the builder 401 error from `FetchUsers`) are plain Go errors whose
recorded type name is never `InvalidAccessKey` or `SiteNotFound`, so the
declared `NonRetryableErrorTypes` list never matches them: the durable layer
classifies them as transient, and a persistent such failure consumes all 5
attempts of `MaximumAttempts` instead of exactly one. -/
theorem syncRetry_notfound_is_retried :
    isNonRetryable syncActivityRetryPolicy errNoRows = false ∧
    isNonRetryable syncActivityRetryPolicy errBuilderUnauthorized = false ∧
    executeWithRetry syncActivityRetryPolicy
      (fun _ => (.error errNoRows : Except GoError SyncSummary)) =
      (.error errNoRows, 5) ∧
    executeWithRetry syncActivityRetryPolicy
      (fun _ => (.error errBuilderUnauthorized : Except GoError SyncSummary)) =
      (.error errBuilderUnauthorized, 5) ∧
    5 ≠ 1 :=
  ⟨rfl, rfl, rfl, rfl, by decide⟩

/-! Concrete inputs and witnesses for the theorems with hypotheses. -/

/-- Concrete registered site used by witnesses. -/
def wSite : RegisteredSite :=
  { siteID := "s1", accessKey := "k", builderBaseURL := "u", registeredAt := 0 }

/-- A store holding one prior event for subject u9 tagged "google". -/
def wStorePrior : EventStore :=
  { rows :=
      [{ id := 1, siteID := "s1", timestamp := 5, userID := "u9", eventName := "page_view",
         utmSource := some "google", properties := [], dedupeKey := "seed:1",
         ingestedAt := 5, metadata := none }],
    nextId := 2 }

/-- A new untagged remote user for subject u9. -/
def wUserNew : BuilderUser :=
  { id := "u9", siteID := "s1", email := "e", firstName := "F", lastName := "L",
    signupAt := 20 }

/-- Witness for C4 at the claim's concrete scenario: a subject with one prior
"google"-tagged event and a new untagged remote entity — the newly inserted
signup event carries source-tag "google". -/
theorem persist_carries_attribution_witness :
    (∃ r ∈ (persistUsersState 50 wSite [wUserNew] wStorePrior).rows,
        r.dedupeKey = signupKey wSite ([wUserNew].get ⟨0, by decide⟩)) ∧
    (∀ r ∈ (persistUsersState 50 wSite [wUserNew] wStorePrior).rows,
        r.dedupeKey = signupKey wSite ([wUserNew].get ⟨0, by decide⟩) →
        r.utmSource = some "google") := by
  have hwf : WFStore wStorePrior := by
    intro r hr s hs
    simp only [wStorePrior, List.mem_singleton] at hr
    subst hr
    have hs2 : some "google" = some s := hs
    cases hs2
    decide
  have h := persist_carries_attribution.1 50 wSite [wUserNew] wStorePrior 0 (by decide)
    hwf (by decide)
  refine ⟨h.1, ?_⟩
  intro r hr hk
  rw [h.2 r hr hk]
  decide

/-- Remote oracle serving a single page with one user, used by the C2 witness. -/
def wRemoteU : Int → Except String PagedUsersResponse := fun p =>
  .ok { page := p, pageSize := 10, total := 1, hasMore := false, nextPage := none,
        users := [{ id := "u1", siteID := "s1", email := "a", firstName := "A",
                    lastName := "B", signupAt := 9 }] }

/-- The store after the first C2 witness run. -/
def wStoreAfter : EventStore :=
  { rows :=
      [{ id := 1, siteID := "s1", timestamp := 9, userID := "u1", eventName := "signup",
         utmSource := none,
         properties := [("email", .str "a"), ("first_name", .str "A"),
           ("last_name", .str "B"), ("signup_at", .time 9)],
         dedupeKey := "signup:s1:u1", ingestedAt := 7, metadata := none }],
    nextId := 2 }

/-- Witness for C2 at a concrete input: the re-run reports 0 inserted, 1
skipped, same pages and total, and leaves the store unchanged. -/
theorem syncUsers_rerun_idempotent_witness :
    syncUsers wRemoteU 8 wSite 2 1 wStoreAfter =
      .ok { inserted := 0, skipped := 1, pages := 1, total := 1 } wStoreAfter :=
  syncUsers_rerun_idempotent wRemoteU 7 8 wSite 2 1 emptyStore wStoreAfter
    { inserted := 1, skipped := 0, pages := 1, total := 1 } (by decide)

/-- Two-page remote table used by the C5/C6 witnesses: page 1 names page 5 as
next, page 5 is the last page. -/
def wTable : Int → PagedResult := fun p =>
  if p = 1 then
    { page := 1, total := 3, hasMore := true, nextPage := some 5, inserted := 1, skipped := 0 }
  else
    { page := p, total := 2, hasMore := false, nextPage := none, inserted := 2, skipped := 0 }

def wFetch : Int → Unit → Except String (PagedResult × Unit) := fun p _ => .ok (wTable p, ())

def wVisit : Nat → Int := fun i => if i = 0 then 1 else 5

def wRs : Nat → PagedResult := fun i => wTable (wVisit i)

def wSs : Nat → Unit := fun _ => ()

/-- Witness for C5 at a concrete input: the loop issues exactly 2 fetches
(pages 1 and 5) and stops at the first page reporting no more data. -/
theorem syncSite_pagination_witness :
    ∃ sum2 : SyncSummary,
      syncSiteT wFetch noCancel 3 0 (wVisit 0) zeroSummary (wSs 0) =
        (.ok sum2 (wSs 2), (List.range 2).map fun i => (wVisit i, wRs i)) ∧
      sum2.pages = zeroSummary.pages + 2 :=
  syncSite_pagination wFetch 1 wVisit wRs wSs
    (fun i hi => by interval_cases i <;> rfl)
    (fun i hi => by interval_cases i; rfl)
    (fun i hi => by interval_cases i; rfl)
    rfl 3 (by omega) 0 zeroSummary

/-- Summary and trace of the C6 witness run. -/
def wSum6 : SyncSummary := { inserted := 3, skipped := 0, pages := 2, total := 3 }

def wTr6 : List (Int × PagedResult) := [(1, wTable 1), (5, wTable 5)]

/-- Witness for C6 at a concrete input: page totals 3 then 2 — the summary's
total_remote is 3, the largest observed value (not the last). -/
theorem syncSite_total_max_witness :
    syncSite wFetch noCancel 3 0 1 zeroSummary () = .ok wSum6 () ∧
    (∃ q ∈ wTr6, q.2.total = wSum6.total) ∧ (∀ q ∈ wTr6, q.2.total ≤ wSum6.total) :=
  syncSite_total_max wFetch 3 0 1 () wSum6 () wTr6 (by decide) (by decide)

/-- Fetcher whose page-5 fetch fails, used by the C7 witness. -/
def wFetchE : Int → Unit → Except String (PagedResult × Unit) := fun p _ =>
  if p = 1 then .ok (wTable 1, ()) else .error "boom"

/-- Witness for C7 at a concrete input: the failing second fetch aborts the
loop, which returns the error with the one-page summary and the state reached
after page 1. -/
theorem syncSite_error_propagation_witness :
    syncSiteT wFetchE noCancel 2 0 (wVisit 0) zeroSummary (wSs 0) =
      (.err "boom" ((List.range 1).foldl (fun a i => stepSummary a (wRs i)) zeroSummary)
          (wSs 1),
        (List.range 1).map fun i => (wVisit i, wRs i)) ∧
    ((List.range 1).foldl (fun a i => stepSummary a (wRs i)) zeroSummary).pages =
      zeroSummary.pages + 1 :=
  syncSite_error_propagation wFetchE 1 wVisit wRs wSs
    (fun i hi => by interval_cases i; rfl)
    (fun i hi => by interval_cases i; rfl)
    (fun i hi => by interval_cases i; rfl)
    "boom" rfl 2 (by omega) 0 zeroSummary

end Worker
